/-
Verification development for the `rust-todo` repository.

The definitions below are a shallow embedding of the repository layer of the
program (src/repositories/todo.rs and src/repositories/label.rs):

* Pure Rust functions (`fold_entities`, `fold_entity`) become Lean functions.
  Rust panics (`Option::unwrap` on `None`, `expect`) are modelled by an
  `Option` result: `none` is a panic.
* The durable (Postgres) backends become explicit state passing over a
  `DbState` / `LabelDb` record holding the table contents as lists of rows.
  The SQL statements appearing in the source are translated one by one:
  `SELECT ... WHERE` is `List.find?` / `List.filter`, `fetch_one` takes the
  first result or fails with `RowNotFound`, `UPDATE ... WHERE` maps over the
  matching rows, `DELETE ... WHERE` filters them out, `ORDER BY id ASC` sorts.
  A query on `todos` alone (the source never joins against `labels`) yields
  rows without the `label_id`/`label_name` columns; the sqlx `FromRow` derive
  decodes a missing column into `none` when the target field is an `Option`
  (sqlx issue #1207), so such rows carry `none` in both label fields.
* The in-memory backends (`HashMap<i32, _>` behind an `RwLock`, used
  sequentially here: the lock serialises every operation, so each operation
  is one atomic state transition) become association lists `List (Int × α)`
  with the usual replace-or-append insert and remove-by-key.  HashMap
  iteration order is unspecified; the model fixes one admissible enumeration
  order, namely the order of the underlying association list.
* The `i32` cast in `(store.len() + 1) as i32` is modelled by `asI32`.
-/
import Mathlib

set_option linter.unusedVariables false

/-- Modelled from the spec: the shared error taxonomy `RepositoryError` lives
in `src/repositories.rs`, which is not part of the provided sources; §7 of the
spec lists exactly `NotFound(id)`, `Duplicate(id)` and `Unexpected(message)`. -/
inductive RepositoryError where
  | NotFound (id : Int)
  | Duplicate (id : Int)
  | Unexpected (msg : String)
  deriving DecidableEq, Repr

/-- Record `Label` (src/repositories/label.rs, lines 15-19). -/
structure Label where
  id : Int
  name : String
  deriving DecidableEq, Repr

/-- Denormalized join row `TodoWithLabelFromRow` (src/repositories/todo.rs,
lines 22-29). -/
structure TodoWithLabelFromRow where
  id : Int
  text : String
  completed : Bool
  label_id : Option Int
  label_name : Option String
  deriving DecidableEq, Repr

/-- Entity `TodoEntity` (src/repositories/todo.rs, lines 32-38). -/
structure TodoEntity where
  id : Int
  text : String
  completed : Bool
  labels : List Label
  deriving DecidableEq, Repr

/-- Payload `CreateTodo` (src/repositories/todo.rs, lines 86-91).  The
validator attributes live in the excluded HTTP layer and play no role in the
repository semantics. -/
structure CreateTodo where
  text : String
  deriving DecidableEq, Repr

/-- Payload `UpdateTodo` (src/repositories/todo.rs, lines 93-99). -/
structure UpdateTodo where
  text : Option String
  completed : Option Bool
  deriving DecidableEq, Repr

/-- The result of `Label { id: row.label_id.unwrap(), name:
row.label_name.clone().unwrap() }`: the built label when both unwraps
succeed, `none` when either of them panics. -/
def rowLabel (row : TodoWithLabelFromRow) : Option Label :=
  match row.label_id, row.label_name with
  | some i, some n => some ⟨i, n⟩
  | _, _ => none

/-- Inner loop of `fold_entities` (todo.rs lines 46-56): scan the accumulator
for an entity whose id equals the row's id; at the first match, push
`Label { id: row.label_id.unwrap(), name: row.label_name.clone().unwrap() }`
onto its label list.  Results: `none` = a panic (an `unwrap` hit `None`),
`some none` = no entity matched, `some (some accum')` = pushed. -/
def pushExisting (row : TodoWithLabelFromRow) :
    List TodoEntity → Option (Option (List TodoEntity))
  | [] => some none
  | e :: rest =>
    if e.id = row.id then
      match rowLabel row with
      | some lab => some (some ({ e with labels := e.labels ++ [lab] } :: rest))
      | none => none
    else
      (pushExisting row rest).map (Option.map (e :: ·))

/-- Fresh-entity branch of `fold_entities` (todo.rs lines 59-73): if
`row.label_id.is_some()` the initial label list is the singleton built from
the two unwraps (so `label_id = some` with `label_name = none` panics),
otherwise it is empty. -/
def newEntityOf (row : TodoWithLabelFromRow) : Option TodoEntity :=
  if row.label_id.isSome then
    match rowLabel row with
    | some lab => some ⟨row.id, row.text, row.completed, [lab]⟩
    | none => none
  else
    some ⟨row.id, row.text, row.completed, []⟩

/-- The `'outer` loop of `fold_entities` (todo.rs lines 44-74), with the
accumulator made explicit. -/
def foldEntitiesAux : List TodoEntity → List TodoWithLabelFromRow → Option (List TodoEntity)
  | accum, [] => some accum
  | accum, row :: rest =>
    match pushExisting row accum with
    | none => none
    | some (some accum') => foldEntitiesAux accum' rest
    | some none =>
      match newEntityOf row with
      | none => none
      | some e => foldEntitiesAux (accum ++ [e]) rest

/-- Function `fold_entities` (todo.rs lines 41-76).  `none` models a panic. -/
def fold_entities (rows : List TodoWithLabelFromRow) : Option (List TodoEntity) :=
  foldEntitiesAux [] rows

/-- Function `fold_entity` (todo.rs lines 78-83): fold the one-row list and `expect`
the first resulting entity. -/
def fold_entity (row : TodoWithLabelFromRow) : Option TodoEntity :=
  (fold_entities [row]).bind List.head?

/-- The distinct elements of a list in first-occurrence order, relative to a
set `seen` of already-seen elements. -/
def newIds (seen : List Int) : List Int → List Int
  | [] => []
  | i :: is => if i ∈ seen then newIds seen is else i :: newIds (i :: seen) is

/-- The distinct todo ids of a row sequence in first-occurrence order. -/
def firstSeenIds (l : List Int) : List Int :=
  newIds [] l

/-- Well-formedness of a join-produced row sequence, relative to the ids
already accumulated: every row carries either a full label pair or a fully
null one, and a null-pair row's id has not been seen before (a todo with no
labels yields exactly one join row). -/
def wfFrom : List Int → List TodoWithLabelFromRow → Bool
  | _, [] => true
  | seen, row :: rest =>
    (if row.label_id.isSome then (rowLabel row).isSome else decide (row.id ∉ seen))
    && wfFrom (row.id :: seen) rest

/-- Well-formedness of a join-produced row sequence. -/
def rowsWF (rows : List TodoWithLabelFromRow) : Bool :=
  wfFrom [] rows

/-- Extend an already-accumulated entity by the labels that a row suffix
contributes to it. -/
def extendE (rows : List TodoWithLabelFromRow) (e : TodoEntity) : TodoEntity :=
  { e with labels := e.labels ++ (rows.filter (fun r => decide (r.id = e.id))).filterMap rowLabel }

example : fold_entities
    [⟨1, "todo 1", false, some 1, some "label 1"⟩,
     ⟨1, "todo 1", false, some 2, some "label 2"⟩,
     ⟨2, "todo 2", false, some 1, some "label 1"⟩] =
    some [⟨1, "todo 1", false, [⟨1, "label 1"⟩, ⟨2, "label 2"⟩]⟩,
          ⟨2, "todo 2", false, [⟨1, "label 1"⟩]⟩] := by decide

example : fold_entities [⟨1, "a", false, none, none⟩, ⟨1, "a", false, none, none⟩] = none := by
  decide

example : fold_entity ⟨1, "a", false, none, none⟩ = some ⟨1, "a", false, []⟩ := rfl

/-- One row of the `todos` table (schema of spec §6: `id`, `text`,
`completed`). -/
structure TodoRow where
  id : Int
  text : String
  completed : Bool
  deriving DecidableEq, Repr

/-- State of the relational store: the `todos` and `labels` tables, the
`todo_labels` association table (spec §6), and the next serial id.  The todo
queries in the source touch only `todos`; `labels` and `todo_labels` are part
of the state so that theorems can speak about stored label associations. -/
structure DbState where
  todos : List TodoRow
  labels : List Label
  todo_labels : List (Int × Int)
  next_id : Int
  deriving DecidableEq, Repr

/-- Decoding a `todos`-only result row into `TodoWithLabelFromRow`: the
`label_id`/`label_name` columns are absent from the query result, and the
sqlx `FromRow` derive decodes an absent column into `none` for an `Option`
field. -/
def dbRow (r : TodoRow) : TodoWithLabelFromRow :=
  ⟨r.id, r.text, r.completed, none, none⟩

namespace TodoRepositoryForDb

/-- Method `TodoRepositoryForDb::find` (todo.rs lines 129-144):
`SELECT * FROM todos WHERE id = $1` with `fetch_one`, mapping
`RowNotFound` to `NotFound(id)` and any other error to `Unexpected`; the
fetched row goes through `fold_entity`.  The fetched row has `none` label
columns, so `fold_entity` cannot panic there; the `Unexpected` fallback in
the `none` branch only keeps the model total. -/
def find (db : DbState) (id : Int) : Except RepositoryError TodoEntity :=
  match db.todos.find? (fun r => decide (r.id = id)) with
  | none => .error (.NotFound id)
  | some r => (fold_entity (dbRow r)).elim (.error (.Unexpected "expect 1 todo")) .ok

/-- Method `TodoRepositoryForDb::update` (todo.rs lines 159-175): re-read via
`find`, fall back to the stored values for absent payload fields, issue
`UPDATE todos SET text = $1, completed = $2 WHERE id = $3 returning *` with
`fetch_one`, and re-fold the returned row.  The `update` method propagates
query errors with a bare `?` (no `RepositoryError` classification); in this
sequential model the returning row always exists once `find` succeeded, so
the `Unexpected` branch is unreachable. -/
def update (db : DbState) (id : Int) (payload : UpdateTodo) :
    Except RepositoryError TodoEntity × DbState :=
  match find db id with
  | .error e => (.error e, db)
  | .ok old =>
    let text := payload.text.getD old.text
    let completed := payload.completed.getD old.completed
    let todos' := db.todos.map fun r =>
      if r.id = id then { r with text := text, completed := completed } else r
    let db' := { db with todos := todos' }
    match todos'.find? (fun r => decide (r.id = id)) with
    | none => (.error (.Unexpected "RowNotFound"), db')
    | some r => ((fold_entity (dbRow r)).elim (.error (.Unexpected "expect 1 todo")) .ok, db')

/-- Method `TodoRepositoryForDb::delete` (todo.rs lines 177-192):
`DELETE FROM todos WHERE id = $1` via `execute`.  `execute` reports how many
rows were affected and never fails with `RowNotFound` (that error arises only
from `fetch_one`/`fetch_optional`), so the `NotFound` arm of the `map_err` is
dead code and the operation succeeds even when no row matches. -/
def delete (db : DbState) (id : Int) : Except RepositoryError Unit × DbState :=
  (.ok (), { db with todos := db.todos.filter (fun r => decide (¬ r.id = id)) })

end TodoRepositoryForDb

namespace LabelRepositoryForDb

/-- Method `LabelRepositoryForDb::create` (label.rs lines 40-67):
`SELECT * FROM labels WHERE name = $1` with `fetch_optional`; on a hit, fail
with `Duplicate(existing.id)` and leave the store untouched; otherwise
`INSERT INTO labels (name) values ($1) returning *` (the serial id is
`next_id`). -/
def create (st : DbState) (name : String) : Except RepositoryError Label × DbState :=
  match st.labels.find? (fun l => decide (l.name = name)) with
  | some l => (.error (.Duplicate l.id), st)
  | none =>
    let lab : Label := ⟨st.next_id, name⟩
    (.ok lab, { st with labels := st.labels ++ [lab], next_id := st.next_id + 1 })

/-- Method `LabelRepositoryForDb::all` (label.rs lines 69-80):
`SELECT * FROM labels ORDER BY labels.id ASC` — the stored labels sorted by
ascending id. -/
def all (st : DbState) : List Label :=
  st.labels.insertionSort (fun a b => a.id ≤ b.id)

end LabelRepositoryForDb

/-- Cast `(store.len() + 1) as i32`: the `usize → i32` cast truncates to 32 bits
and reinterprets them as a signed value. -/
def asI32 (n : Nat) : Int :=
  if n % 2 ^ 32 < 2 ^ 31 then (n % 2 ^ 32 : Nat) else (n % 2 ^ 32 : Nat) - 2 ^ 32

/-- Lookup in the association-list model of `HashMap<i32, α>`. -/
def lookupK {α : Type} (s : List (Int × α)) (k : Int) : Option α :=
  (s.find? (fun p => decide (p.1 = k))).map Prod.snd

/-- Operation `HashMap::insert`: replace the entry of an existing key in place,
otherwise add the new entry. -/
def insertK {α : Type} : List (Int × α) → Int → α → List (Int × α)
  | [], k, v => [(k, v)]
  | p :: rest, k, v => if p.1 = k then (k, v) :: rest else p :: insertK rest k v

/-- Operation `HashMap::remove`: drop the entry of the key (a HashMap holds at most one
entry per key). -/
def removeK {α : Type} (s : List (Int × α)) (k : Int) : List (Int × α) :=
  s.filter (fun p => decide (¬ p.1 = k))

/-- The in-memory todo store `TodoDatas = HashMap<i32, TodoEntity>`
(todo.rs line 223). -/
abbrev TodoDatas : Type := List (Int × TodoEntity)

/-- The in-memory label store `LabelDatas = HashMap<i32, Label>`
(label.rs line 108). -/
abbrev LabelDatas : Type := List (Int × Label)

namespace TodoRepositoryForMemory

/-- Method `TodoRepositoryForMemory::create` (todo.rs lines 252-258): assign the id
`(store.len() + 1) as i32`, build `TodoEntity::new(id, text)` (completed
false, no labels), insert it under that id. -/
def create (s : TodoDatas) (payload : CreateTodo) : TodoEntity × TodoDatas :=
  let id := asI32 (List.length s + 1)
  let todo : TodoEntity := ⟨id, payload.text, false, []⟩
  (todo, insertK s id todo)

/-- Method `TodoRepositoryForMemory::find` (todo.rs lines 260-267). -/
def find (s : TodoDatas) (id : Int) : Except RepositoryError TodoEntity :=
  match lookupK s id with
  | some todo => .ok todo
  | none => .error (.NotFound id)

/-- Method `TodoRepositoryForMemory::all` (todo.rs lines 269-272): clone the stored
values in enumeration order. -/
def all (s : TodoDatas) : List TodoEntity :=
  s.map Prod.snd

/-- Method `TodoRepositoryForMemory::update` (todo.rs lines 275-288): `NotFound` when
the id is absent; otherwise absent payload fields fall back to the stored
values, and the rebuilt entity (labels reset to `[]`) overwrites the entry. -/
def update (s : TodoDatas) (id : Int) (payload : UpdateTodo) :
    Except RepositoryError TodoEntity × TodoDatas :=
  match lookupK s id with
  | none => (.error (.NotFound id), s)
  | some todo =>
    let text := payload.text.getD todo.text
    let completed := payload.completed.getD todo.completed
    let todo' : TodoEntity := ⟨id, text, completed, []⟩
    (.ok todo', insertK s id todo')

/-- Method `TodoRepositoryForMemory::delete` (todo.rs lines 291-295): `remove`
returns the removed value, `ok_or` turns `None` into `NotFound`. -/
def delete (s : TodoDatas) (id : Int) : Except RepositoryError Unit × TodoDatas :=
  match lookupK s id with
  | none => (.error (.NotFound id), s)
  | some _ => (.ok (), removeK s id)

end TodoRepositoryForMemory

namespace LabelRepositoryForMemory

/-- Method `LabelRepositoryForMemory::create` (label.rs lines 143-149): same
count-based id assignment, no duplicate-name check. -/
def create (s : LabelDatas) (name : String) : Label × LabelDatas :=
  let id := asI32 (List.length s + 1)
  let label : Label := ⟨id, name⟩
  (label, insertK s id label)

/-- Method `LabelRepositoryForMemory::all` (label.rs lines 151-154): clone the stored
values in enumeration order; no sorting. -/
def all (s : LabelDatas) : List Label :=
  s.map Prod.snd

/-- Method `LabelRepositoryForMemory::delete` (label.rs lines 157-161). -/
def delete (s : LabelDatas) (id : Int) : Except RepositoryError Unit × LabelDatas :=
  match lookupK s id with
  | none => (.error (.NotFound id), s)
  | some _ => (.ok (), removeK s id)

end LabelRepositoryForMemory

/-- A row whose `label_id` column is null builds no label. -/
theorem rowLabel_eq_none_left (row : TodoWithLabelFromRow) (h : row.label_id = none) :
    rowLabel row = none := by
  unfold rowLabel
  rw [h]

/-- A successful label build certifies that `label_id` was present. -/
theorem rowLabel_isSome_left (row : TodoWithLabelFromRow) (lab : Label)
    (h : rowLabel row = some lab) : row.label_id.isSome = true := by
  cases hi : row.label_id with
  | none => rw [rowLabel_eq_none_left row hi] at h; exact absurd h (by simp)
  | some i => rfl

/-- The inner scan panics only when the row's id is already accumulated and
the row's label pair does not build. -/
theorem pushExisting_eq_none (row : TodoWithLabelFromRow) :
    ∀ accum : List TodoEntity, pushExisting row accum = none →
      row.id ∈ accum.map (·.id) ∧ rowLabel row = none := by
  intro accum
  induction accum with
  | nil => intro h; exact absurd h (by simp [pushExisting])
  | cons e rest ih =>
    intro h
    by_cases he : e.id = row.id
    · refine ⟨by simp [he], ?_⟩
      cases hl : rowLabel row with
      | none => rfl
      | some lab => simp [pushExisting, he, hl] at h
    · rw [pushExisting, if_neg he, Option.map_eq_none'] at h
      obtain ⟨hm, hl⟩ := ih h
      exact ⟨by simp [List.mem_cons]; right; simpa using hm, hl⟩

/-- The inner scan reports "not found" exactly when no accumulated entity has
the row's id. -/
theorem pushExisting_eq_some_none (row : TodoWithLabelFromRow) :
    ∀ accum : List TodoEntity, pushExisting row accum = some none →
      ∀ e ∈ accum, e.id ≠ row.id := by
  intro accum
  induction accum with
  | nil => intro _ e he; exact absurd he (by simp)
  | cons e rest ih =>
    intro h x hx
    by_cases he : e.id = row.id
    · exfalso
      cases hl : rowLabel row with
      | none => simp [pushExisting, he, hl] at h
      | some lab => simp [pushExisting, he, hl] at h
    · rw [pushExisting, if_neg he] at h
      rw [Option.map_eq_some'] at h
      obtain ⟨o, ho, ho2⟩ := h
      have : o = none := by
        cases o with
        | none => rfl
        | some l => simp at ho2
      subst this
      rcases List.mem_cons.1 hx with rfl | hx'
      · exact he
      · exact ih ho x hx'

/-- Successful push: the accumulator splits at the first entity carrying the
row's id, and that entity receives the row's label at the end of its list. -/
theorem pushExisting_eq_some_some (row : TodoWithLabelFromRow) :
    ∀ accum accum' : List TodoEntity, pushExisting row accum = some (some accum') →
      ∃ pre e post lab, accum = pre ++ e :: post
        ∧ (∀ x ∈ pre, x.id ≠ row.id) ∧ e.id = row.id ∧ rowLabel row = some lab
        ∧ accum' = pre ++ { e with labels := e.labels ++ [lab] } :: post := by
  intro accum
  induction accum with
  | nil => intro accum' h; simp [pushExisting] at h
  | cons e rest ih =>
    intro accum' h
    by_cases he : e.id = row.id
    · cases hl : rowLabel row with
      | none => simp [pushExisting, he, hl] at h
      | some lab =>
        rw [pushExisting, if_pos he, hl] at h
        refine ⟨[], e, rest, lab, by simp, by simp, he, rfl, ?_⟩
        have := Option.some.inj (Option.some.inj h)
        simpa using this.symm
    · rw [pushExisting, if_neg he] at h
      rw [Option.map_eq_some'] at h
      obtain ⟨o, ho, ho2⟩ := h
      cases o with
      | none => simp at ho2
      | some acc2 =>
        have hacc : accum' = e :: acc2 := by simpa using ho2.symm
        obtain ⟨pre, e0, post, lab, h1, h2, h3, h4, h5⟩ := ih acc2 ho
        refine ⟨e :: pre, e0, post, lab, by simp [h1], ?_, h3, h4, by simp [hacc, h5]⟩
        intro x hx
        rcases List.mem_cons.1 hx with rfl | hx'
        · exact he
        · exact h2 x hx'

/-- A successful push keeps the ids of the accumulator unchanged. -/
theorem pushExisting_ids (row : TodoWithLabelFromRow) (accum accum' : List TodoEntity)
    (h : pushExisting row accum = some (some accum')) :
    accum'.map (·.id) = accum.map (·.id) ∧ row.id ∈ accum.map (·.id) := by
  obtain ⟨pre, e, post, lab, h1, _, h3, _, h5⟩ := pushExisting_eq_some_some row accum accum' h
  subst h1 h5
  constructor
  · simp
  · simp [h3]

/-- Shape of a freshly created entity (todo.rs lines 59-73). -/
theorem newEntityOf_eq_some (row : TodoWithLabelFromRow) (e0 : TodoEntity)
    (h : newEntityOf row = some e0) :
    e0 = ⟨row.id, row.text, row.completed, (rowLabel row).toList⟩ := by
  unfold newEntityOf at h
  by_cases hi : row.label_id.isSome
  · rw [if_pos hi] at h
    cases hl : rowLabel row with
    | none => rw [hl] at h; exact absurd h (by simp)
    | some lab =>
      rw [hl] at h
      simpa using (Option.some.inj h).symm
  · rw [if_neg hi] at h
    have hnone : rowLabel row = none :=
      rowLabel_eq_none_left row (Option.not_isSome_iff_eq_none.1 hi)
    rw [hnone]
    simpa using (Option.some.inj h).symm

/-- Helper `newIds` depends on the seen set only through membership. -/
theorem newIds_congr : ∀ (l s1 s2 : List Int), (∀ i, i ∈ s1 ↔ i ∈ s2) →
    newIds s1 l = newIds s2 l := by
  intro l
  induction l with
  | nil => intros; rfl
  | cons i is ih =>
    intro s1 s2 hs
    simp only [newIds]
    by_cases h1 : i ∈ s1
    · rw [if_pos h1, if_pos ((hs i).1 h1)]
      exact ih _ _ hs
    · rw [if_neg h1, if_neg (fun h2 => h1 ((hs i).2 h2))]
      exact congrArg (i :: ·) (ih _ _ (fun j => by simp [List.mem_cons, hs j]))

/-- Helper `wfFrom` depends on the seen set only through membership. -/
theorem wfFrom_congr : ∀ (rows : List TodoWithLabelFromRow) (s1 s2 : List Int),
    (∀ i, i ∈ s1 ↔ i ∈ s2) → wfFrom s1 rows = wfFrom s2 rows := by
  intro rows
  induction rows with
  | nil => intros; rfl
  | cons row rest ih =>
    intro s1 s2 hs
    have htail : wfFrom (row.id :: s1) rest = wfFrom (row.id :: s2) rest :=
      ih _ _ (fun j => by simp [List.mem_cons, hs j])
    have hd : decide (row.id ∉ s1) = decide (row.id ∉ s2) :=
      decide_eq_decide.2 (not_congr (hs row.id))
    simp only [wfFrom, htail, hd]

/-- On a well-formed row suffix the fold never panics. -/
theorem foldAux_total : ∀ (rows : List TodoWithLabelFromRow) (accum : List TodoEntity),
    wfFrom (accum.map (·.id)) rows = true →
    ∃ es, foldEntitiesAux accum rows = some es := by
  intro rows
  induction rows with
  | nil => intro accum _; exact ⟨accum, rfl⟩
  | cons row rest ih =>
    intro accum h
    rw [wfFrom, Bool.and_eq_true] at h
    obtain ⟨hhead, htail⟩ := h
    cases hp : pushExisting row accum with
    | none =>
      obtain ⟨hmem, hlab⟩ := pushExisting_eq_none row accum hp
      by_cases hi : row.label_id.isSome
      · rw [if_pos hi, hlab] at hhead
        exact absurd hhead (by simp)
      · rw [if_neg hi] at hhead
        rw [decide_eq_true_eq] at hhead
        exact absurd hmem hhead
    | some o =>
      cases o with
      | some accum' =>
        obtain ⟨hids, hmem⟩ := pushExisting_ids row accum accum' hp
        have hiff : ∀ j, j ∈ (row.id :: accum.map (·.id)) ↔ j ∈ accum.map (·.id) := by
          intro j
          constructor
          · intro hj
            rcases List.mem_cons.1 hj with rfl | hj'
            · exact hmem
            · exact hj'
          · exact fun hj => List.mem_cons_of_mem _ hj
        have hwf : wfFrom (accum'.map (·.id)) rest = true := by
          rw [hids, ← wfFrom_congr rest _ _ hiff]
          exact htail
        obtain ⟨es, hes⟩ := ih accum' hwf
        exact ⟨es, by simp only [foldEntitiesAux, hp]; exact hes⟩
      | none =>
        have hnot := pushExisting_eq_some_none row accum hp
        have hne : ∃ e0, newEntityOf row = some e0 := by
          by_cases hi : row.label_id.isSome
          · rw [if_pos hi] at hhead
            cases hl : rowLabel row with
            | none => rw [hl] at hhead; exact absurd hhead (by simp)
            | some lab => exact ⟨_, by rw [newEntityOf, if_pos hi, hl]⟩
          · exact ⟨_, by rw [newEntityOf, if_neg hi]⟩
        obtain ⟨e0, he0⟩ := hne
        have he0id : e0.id = row.id := by rw [newEntityOf_eq_some row e0 he0]
        have hmap : (accum ++ [e0]).map (·.id) = accum.map (·.id) ++ [row.id] := by
          simp [he0id]
        have hwf : wfFrom ((accum ++ [e0]).map (·.id)) rest = true := by
          rw [hmap,
            ← wfFrom_congr rest (row.id :: accum.map (·.id)) _
              (fun j => by simp [List.mem_cons, List.mem_append, or_comm])]
          exact htail
        obtain ⟨es, hes⟩ := ih (accum ++ [e0]) hwf
        exact ⟨es, by simp only [foldEntitiesAux, hp, he0]; exact hes⟩

/-- The ids of the folded entities are the accumulated ids followed by the
fresh row ids in first-occurrence order. -/
theorem foldAux_ids : ∀ (rows : List TodoWithLabelFromRow) (accum es : List TodoEntity),
    foldEntitiesAux accum rows = some es →
    es.map (·.id) = accum.map (·.id) ++ newIds (accum.map (·.id)) (rows.map (·.id)) := by
  intro rows
  induction rows with
  | nil =>
    intro accum es h
    have : accum = es := Option.some.inj h
    subst this
    simp [newIds]
  | cons row rest ih =>
    intro accum es h
    rw [foldEntitiesAux] at h
    cases hp : pushExisting row accum with
    | none => rw [hp] at h; exact absurd h (by simp)
    | some o =>
      cases o with
      | some accum' =>
        rw [hp] at h
        obtain ⟨hids, hmem⟩ := pushExisting_ids row accum accum' hp
        have := ih accum' es h
        rw [hids] at this
        rw [this, List.map_cons, newIds, if_pos hmem]
      | none =>
        rw [hp] at h
        cases he0 : newEntityOf row with
        | none => rw [he0] at h; exact absurd h (by simp)
        | some e0 =>
          rw [he0] at h
          have hnot := pushExisting_eq_some_none row accum hp
          have he0id : e0.id = row.id := by rw [newEntityOf_eq_some row e0 he0]
          have hrow : row.id ∉ accum.map (·.id) := by
            rw [List.mem_map]
            rintro ⟨x, hx, hxid⟩
            exact hnot x hx hxid
          have hmap : (accum ++ [e0]).map (·.id) = accum.map (·.id) ++ [row.id] := by
            simp [he0id]
          have := ih (accum ++ [e0]) es h
          rw [hmap] at this
          rw [this, List.map_cons, newIds, if_neg hrow,
            newIds_congr (rest.map (·.id)) (accum.map (·.id) ++ [row.id])
              (row.id :: accum.map (·.id))
              (fun j => by simp [List.mem_cons, List.mem_append, or_comm]),
            List.append_cons]
          simp

theorem extendE_nil (e : TodoEntity) : extendE [] e = e := by
  cases e with
  | mk i t c ls => simp [extendE]

theorem map_extendE_nil (l : List TodoEntity) : l.map (extendE []) = l := by
  induction l with
  | nil => rfl
  | cons e rest ih => simp [extendE_nil, ih]

theorem extendE_cons_ne (row : TodoWithLabelFromRow) (rest : List TodoWithLabelFromRow)
    (e : TodoEntity) (h : ¬ row.id = e.id) : extendE (row :: rest) e = extendE rest e := by
  unfold extendE
  rw [List.filter_cons, if_neg (by simp [h])]

/-- Structural description of a successful fold: every accumulated entity is
extended by exactly the labels of its rows in row order, and every fresh
entity takes its fields from the first row with its id and aggregates the
labels of all its rows in row order, one `filterMap rowLabel` hit per row. -/
theorem foldAux_main : ∀ (rows : List TodoWithLabelFromRow) (accum es : List TodoEntity),
    (accum.map (·.id)).Nodup →
    foldEntitiesAux accum rows = some es →
    ∃ news, es = accum.map (extendE rows) ++ news
      ∧ ∀ e ∈ news,
          e.id ∉ accum.map (·.id)
          ∧ e.labels = (rows.filter (fun r => decide (r.id = e.id))).filterMap rowLabel
          ∧ ∃ r, rows.find? (fun r => decide (r.id = e.id)) = some r
              ∧ e.text = r.text ∧ e.completed = r.completed := by
  intro rows
  induction rows with
  | nil =>
    intro accum es _ h
    have : accum = es := Option.some.inj h
    subst this
    exact ⟨[], by simp [map_extendE_nil], by simp⟩
  | cons row rest ih =>
    intro accum es hnodup h
    rw [foldEntitiesAux] at h
    cases hp : pushExisting row accum with
    | none => rw [hp] at h; exact absurd h (by simp)
    | some o =>
      cases o with
      | some accum' =>
        rw [hp] at h
        obtain ⟨pre, e, post, lab, ha, hpre, heid, hlab, ha'⟩ :=
          pushExisting_eq_some_some row accum accum' hp
        have hids : accum'.map (·.id) = accum.map (·.id) := by
          subst ha ha'; simp
        have hmem : row.id ∈ accum.map (·.id) := by subst ha; simp [heid]
        have hpost : ∀ x ∈ post, ¬ x.id = row.id := by
          intro x hx
          subst ha
          rw [List.map_append, List.map_cons, List.nodup_append] at hnodup
          have h1 : e.id ∉ post.map (·.id) := (List.nodup_cons.1 hnodup.2.1).1
          intro hxe
          exact h1 (by rw [← heid] at hxe; exact hxe ▸ List.mem_map_of_mem _ hx)
        obtain ⟨news, hes, hprops⟩ := ih accum' es (hids ▸ hnodup) h
        have hkey : accum'.map (extendE rest) = accum.map (extendE (row :: rest)) := by
          subst ha ha'
          rw [List.map_append, List.map_append, List.map_cons, List.map_cons]
          congr 1
          · exact List.map_congr_left
              (fun x hx => (extendE_cons_ne row rest x (fun hh => hpre x hx hh.symm)).symm)
          congr 1
          · cases e with
            | mk i t c ls =>
              have hi : i = row.id := heid
              subst hi
              unfold extendE
              rw [List.filter_cons, if_pos (by simp)]
              rw [List.filterMap_cons_some hlab]
              simp
          · exact List.map_congr_left
              (fun x hx => (extendE_cons_ne row rest x (fun hh => hpost x hx hh.symm)).symm)
        refine ⟨news, by rw [hes, hkey], ?_⟩
        intro x hx
        obtain ⟨hxid, hxlab, r, hr, hrt, hrc⟩ := hprops x hx
        rw [hids] at hxid
        have hxrow : ¬ row.id = x.id := by
          intro hh
          exact hxid (hh ▸ hmem)
        refine ⟨hxid, ?_, ⟨r, ?_, hrt, hrc⟩⟩
        · rw [List.filter_cons, if_neg (by simp [hxrow])]
          exact hxlab
        · rw [List.find?_cons_of_neg _ (by simp [hxrow])]
          exact hr
      | none =>
        rw [hp] at h
        cases he0 : newEntityOf row with
        | none => rw [he0] at h; exact absurd h (by simp)
        | some e0 =>
          rw [he0] at h
          have hnot := pushExisting_eq_some_none row accum hp
          have he0eq : e0 = ⟨row.id, row.text, row.completed, (rowLabel row).toList⟩ :=
            newEntityOf_eq_some row e0 he0
          have he0id : e0.id = row.id := by rw [he0eq]
          have hrow : row.id ∉ accum.map (·.id) := by
            rw [List.mem_map]
            rintro ⟨x, hx, hxid⟩
            exact hnot x hx hxid
          have hnodup' : ((accum ++ [e0]).map (·.id)).Nodup := by
            rw [List.map_append]
            exact List.nodup_append.2 ⟨hnodup, by simp, by
              intro a ha hb
              simp only [List.map_cons, List.map_nil, List.mem_singleton] at hb
              exact hrow ((hb.trans he0id) ▸ ha)⟩
          obtain ⟨news', hes, hprops⟩ := ih (accum ++ [e0]) es hnodup' h
          refine ⟨extendE rest e0 :: news', ?_, ?_⟩
          · rw [hes, List.map_append, List.map_cons, List.map_nil]
            have hmc : accum.map (extendE rest) = accum.map (extendE (row :: rest)) :=
              List.map_congr_left
                (fun x hx => (extendE_cons_ne row rest x (fun hh => hnot x hx hh.symm)).symm)
            rw [hmc, ← List.append_cons]
          · intro x hx
            rcases List.mem_cons.1 hx with rfl | hx'
            · subst he0eq
              refine ⟨by simpa [extendE] using hrow, ?_, row, ?_, rfl, rfl⟩
              · show (rowLabel row).toList ++ _ = _
                rw [List.filter_cons, if_pos (by simp [extendE])]
                cases hl : rowLabel row with
                | none =>
                  rw [List.filterMap_cons_none hl]
                  simp [extendE]
                | some lab =>
                  rw [List.filterMap_cons_some hl]
                  simp [extendE]
              · rw [List.find?_cons_of_pos _ (by simp [extendE])]
            · obtain ⟨hxid, hxlab, r, hr, hrt, hrc⟩ := hprops x hx'
              rw [List.map_append, List.mem_append] at hxid
              push_neg at hxid
              obtain ⟨hxid1, hxid2⟩ := hxid
              have hxrow : ¬ row.id = x.id := by
                intro hh
                exact hxid2 (by simp [he0id, hh])
              refine ⟨hxid1, ?_, ⟨r, ?_, hrt, hrc⟩⟩
              · rw [List.filter_cons, if_neg (by simp [hxrow])]
                exact hxlab
              · rw [List.find?_cons_of_neg _ (by simp [hxrow])]
                exact hr

/-- C1: for every sequence of join rows R, `fold_entities R` succeeds and
returns the todo entities grouped by todo id in first-seen order; the ids of
the result are exactly the distinct todo ids of R in first-occurrence order;
each entity's fields come from the first row with its id, and its labels are
the labels of all its rows in row order, one appended label per non-null
label row, with no reordering and no deduplication. -/
theorem fold_entities_correct (rows : List TodoWithLabelFromRow) (hwf : rowsWF rows = true) :
    ∃ es, fold_entities rows = some es
      ∧ es.map (·.id) = firstSeenIds (rows.map (·.id))
      ∧ ∀ e ∈ es,
          e.labels = (rows.filter (fun r => decide (r.id = e.id))).filterMap rowLabel
          ∧ ∃ r, rows.find? (fun r => decide (r.id = e.id)) = some r
              ∧ e.text = r.text ∧ e.completed = r.completed := by
  obtain ⟨es, hes⟩ := foldAux_total rows [] (by simpa [rowsWF] using hwf)
  refine ⟨es, hes, ?_, ?_⟩
  · have := foldAux_ids rows [] es hes
    simpa [firstSeenIds] using this
  · obtain ⟨news, h1, h2⟩ := foldAux_main rows [] es (by simp) hes
    intro e he
    have hmem : e ∈ news := by
      rw [h1] at he
      simpa using he
    obtain ⟨_, hl, hf⟩ := h2 e hmem
    exact ⟨hl, hf⟩

/-- The rows of the repository's own `fold_entities_test` (todo.rs lines
307-357). -/
def exRows : List TodoWithLabelFromRow :=
  [⟨1, "todo 1", false, some 1, some "label 1"⟩,
   ⟨1, "todo 1", false, some 2, some "label 2"⟩,
   ⟨2, "todo 2", false, some 1, some "label 1"⟩]

/-- Witness for C1 at the repository's own test rows. -/
theorem fold_entities_correct_witness :
    rowsWF exRows = true ∧
    (∃ es, fold_entities exRows = some es
      ∧ es.map (·.id) = firstSeenIds (exRows.map (·.id))
      ∧ ∀ e ∈ es,
          e.labels = (exRows.filter (fun r => decide (r.id = e.id))).filterMap rowLabel
          ∧ ∃ r, exRows.find? (fun r => decide (r.id = e.id)) = some r
              ∧ e.text = r.text ∧ e.completed = r.completed) :=
  ⟨by decide, fold_entities_correct exRows (by decide)⟩

/-- C3 counterexample: a row with a null label pair whose todo id matches an
already-accumulated entity does not "append nothing and proceed" — the inner
branch unwraps the null `label_id` and panics (modelled as `none`). -/
theorem fold_null_dup_panics :
    fold_entities [⟨1, "a", false, none, none⟩, ⟨1, "a", false, none, none⟩] = none := by
  decide

/-- C3 (amended): a null label pair contributes zero labels only in the
first-seen position — a first-seen null-pair row yields an entity with an
empty label list, while a null-pair row whose todo id matches an
already-accumulated entity makes `fold_entities` panic instead of skipping
the append. -/
theorem fold_null_first_seen :
    (∀ (i : Int) (t : String) (c : Bool),
        fold_entities [⟨i, t, c, none, none⟩] = some [⟨i, t, c, []⟩])
    ∧ ∀ (i : Int) (t t2 : String) (c c2 : Bool),
        fold_entities [⟨i, t, c, none, none⟩, ⟨i, t2, c2, none, none⟩] = none := by
  constructor
  · intro i t c
    rfl
  · intro i t t2 c c2
    simp [fold_entities, foldEntitiesAux, pushExisting, newEntityOf, rowLabel]

/-- C4: on every single join row (a row whose label columns are either both
present or both null), the single-entity fold variant returns exactly one
entity, so the `expect` on "zero folded entities" is unreachable and
`fold_entity` succeeds. -/
theorem fold_entity_exactly_one (row : TodoWithLabelFromRow)
    (h : row.label_id.isSome = row.label_name.isSome) :
    ∃ e, fold_entities [row] = some [e] ∧ fold_entity row = some e := by
  cases hi : row.label_id with
  | none =>
    refine ⟨⟨row.id, row.text, row.completed, []⟩, ?_, ?_⟩ <;>
      simp [fold_entities, fold_entity, foldEntitiesAux, pushExisting, newEntityOf, hi]
  | some i =>
    have hn : ∃ n, row.label_name = some n := by
      rw [hi] at h
      cases hn : row.label_name with
      | none => rw [hn] at h; exact absurd h (by simp)
      | some n => exact ⟨n, rfl⟩
    obtain ⟨n, hn⟩ := hn
    refine ⟨⟨row.id, row.text, row.completed, [⟨i, n⟩]⟩, ?_, ?_⟩ <;>
      simp [fold_entities, fold_entity, foldEntitiesAux, pushExisting, newEntityOf, rowLabel,
        hi, hn]

/-- Witness for C4 at a concrete labelless row. -/
theorem fold_entity_exactly_one_witness :
    (⟨1, "t", false, none, none⟩ : TodoWithLabelFromRow).label_id.isSome
        = (⟨1, "t", false, none, none⟩ : TodoWithLabelFromRow).label_name.isSome
    ∧ ∃ e, fold_entities [⟨1, "t", false, none, none⟩] = some [e]
        ∧ fold_entity ⟨1, "t", false, none, none⟩ = some e :=
  ⟨rfl, fold_entity_exactly_one ⟨1, "t", false, none, none⟩ rfl⟩

/-- A `todos`-only result row always folds, into an entity with no labels. -/
theorem fold_entity_dbRow (r : TodoRow) :
    fold_entity (dbRow r) = some ⟨r.id, r.text, r.completed, []⟩ := rfl

/-- A concrete relational state: todo 1 exists and the association tables
record label 10 as attached to it. -/
def exDb : DbState :=
  ⟨[⟨1, "todo 1", false⟩], [⟨10, "label 10"⟩], [(1, 10)], 2⟩

/-- C2 counterexample: on a store where todo 1 has a stored label association
(`todo_labels` row `(1, 10)`), `find 1` succeeds but returns the entity with
an empty label list — the query reads only `todos`, so the returned entity
does not carry the associated label. -/
theorem find_db_drops_labels :
    TodoRepositoryForDb.find exDb 1 = .ok ⟨1, "todo 1", false, []⟩
    ∧ exDb.todo_labels = [(1, 10)] ∧ exDb.labels = [⟨10, "label 10"⟩] :=
  ⟨rfl, rfl, rfl⟩

/-- C2 (amended): on the relational backend `find` issues a plain
`SELECT * FROM todos WHERE id = $1` with no label join; when no row with the
id exists it fails with `NotFound` (the `RowNotFound → NotFound, other →
Unexpected` classification of the source), and when a row exists the fetched
row's absent label columns decode to null, so the single-entity fold yields
that row's fields with an empty label list. -/
theorem find_db_spec (db : DbState) (id : Int) :
    (db.todos.find? (fun r => decide (r.id = id)) = none →
        TodoRepositoryForDb.find db id = .error (.NotFound id))
    ∧ ∀ r, db.todos.find? (fun r => decide (r.id = id)) = some r →
        TodoRepositoryForDb.find db id = .ok ⟨r.id, r.text, r.completed, []⟩ := by
  constructor
  · intro h
    simp [TodoRepositoryForDb.find, h]
  · intro r h
    simp [TodoRepositoryForDb.find, h, fold_entity_dbRow]

/-- Witness for C2's amended statement: `find` on an absent id and on a
present id of the concrete state. -/
theorem find_db_spec_witness :
    TodoRepositoryForDb.find exDb 5 = .error (.NotFound 5)
    ∧ TodoRepositoryForDb.find exDb 1 = .ok ⟨1, "todo 1", false, []⟩ :=
  ⟨(find_db_spec exDb 5).1 (by decide),
   (find_db_spec exDb 1).2 ⟨1, "todo 1", false⟩ (by decide)⟩

/-- Updating the matching rows of the todos table preserves the position of
the first match, which carries the new field values. -/
theorem find_map_update (id : Int) (T : String) (C : Bool) :
    ∀ (l : List TodoRow) (r : TodoRow),
      l.find? (fun x => decide (x.id = id)) = some r →
      (l.map (fun x => if x.id = id then { x with text := T, completed := C } else x)).find?
          (fun x => decide (x.id = id)) = some { r with text := T, completed := C } := by
  intro l
  induction l with
  | nil => intro r h; exact absurd h (by simp)
  | cons x xs ih =>
    intro r h
    by_cases hx : x.id = id
    · rw [List.find?_cons_of_pos _ (by simp [hx])] at h
      have : x = r := Option.some.inj h
      subst this
      simp only [List.map_cons]
      rw [if_pos hx, List.find?_cons_of_pos _ (by simp [hx])]
    · rw [List.find?_cons_of_neg _ (by simp [hx])] at h
      simp only [List.map_cons]
      rw [if_neg hx, List.find?_cons_of_neg _ (by simp [hx])]
      exact ih r h

/-- C5: `update` merges partially on both backends: an absent payload field
falls back to the stored value (absent means "do not change"), and an absent
id fails with `NotFound`. -/
theorem update_partial_merge :
    (∀ (db : DbState) (id : Int) (p : UpdateTodo),
        (db.todos.find? (fun r => decide (r.id = id)) = none →
          (TodoRepositoryForDb.update db id p).1 = .error (.NotFound id))
        ∧ ∀ r, db.todos.find? (fun r => decide (r.id = id)) = some r →
            (TodoRepositoryForDb.update db id p).1
              = .ok ⟨r.id, p.text.getD r.text, p.completed.getD r.completed, []⟩)
    ∧ ∀ (s : TodoDatas) (id : Int) (p : UpdateTodo),
        (lookupK s id = none →
          TodoRepositoryForMemory.update s id p = (.error (.NotFound id), s))
        ∧ ∀ t, lookupK s id = some t →
            TodoRepositoryForMemory.update s id p
              = (.ok ⟨id, p.text.getD t.text, p.completed.getD t.completed, []⟩,
                 insertK s id ⟨id, p.text.getD t.text, p.completed.getD t.completed, []⟩) := by
  constructor
  · intro db id p
    constructor
    · intro h
      have hf : TodoRepositoryForDb.find db id = .error (.NotFound id) := (find_db_spec db id).1 h
      simp [TodoRepositoryForDb.update, hf]
    · intro r h
      have hf := (find_db_spec db id).2 r h
      have hm := find_map_update id (p.text.getD r.text) (p.completed.getD r.completed) db.todos r h
      simp only [TodoRepositoryForDb.update, hf, hm]
      rfl
  · intro s id p
    constructor
    · intro h
      simp [TodoRepositoryForMemory.update, h]
    · intro t h
      simp [TodoRepositoryForMemory.update, h]

/-- A concrete relational state with one todo and no labels. -/
def exDb2 : DbState := ⟨[⟨1, "a", false⟩], [], [], 2⟩

/-- A concrete in-memory todo store with one entity. -/
def exMem : TodoDatas := [(1, ⟨1, "a", false, []⟩)]

/-- Witness for C5: a completed-only update keeps the stored text on the
relational backend, and a text-only update keeps the stored completed flag on
the in-memory backend. -/
theorem update_partial_merge_witness :
    (TodoRepositoryForDb.update exDb2 1 ⟨none, some true⟩).1 = .ok ⟨1, "a", true, []⟩
    ∧ TodoRepositoryForMemory.update exMem 1 ⟨some "b", none⟩
        = (.ok ⟨1, "b", false, []⟩, insertK exMem 1 ⟨1, "b", false, []⟩) :=
  ⟨(update_partial_merge.1 exDb2 1 ⟨none, some true⟩).2 ⟨1, "a", false⟩ (by decide),
   (update_partial_merge.2 exMem 1 ⟨some "b", none⟩).2 ⟨1, "a", false, []⟩ (by decide)⟩

/-- After removing a key, looking it up fails. -/
theorem lookupK_removeK_self {α : Type} (s : List (Int × α)) (k : Int) :
    lookupK (removeK s k) k = none := by
  unfold lookupK removeK
  rw [List.find?_eq_none.2]
  · rfl
  · intro x hx
    have := (List.mem_filter.1 hx).2
    simp at this ⊢
    exact this

/-- Deleting an id from the todos table leaves no row with that id. -/
theorem todos_find?_after_delete (l : List TodoRow) (id : Int) :
    (l.filter (fun r => decide (¬ r.id = id))).find? (fun r => decide (r.id = id)) = none := by
  rw [List.find?_eq_none]
  intro x hx
  have := (List.mem_filter.1 hx).2
  simp at this ⊢
  exact this

/-- The state of a relational store with no rows at all. -/
def emptyDb : DbState := ⟨[], [], [], 1⟩

/-- C6 counterexample: on the durable backend, deleting an id with no
matching row succeeds instead of failing with `NotFound` — the `DELETE`
statement runs through `execute`, which reports zero affected rows as
success, so the `RowNotFound → NotFound` mapping never fires. -/
theorem delete_db_absent_ok :
    (TodoRepositoryForDb.delete emptyDb 5).1 = .ok ()
    ∧ emptyDb.todos.find? (fun r => decide (r.id = 5)) = none :=
  ⟨rfl, rfl⟩

/-- C6 (amended): the in-memory backend's `delete` fails with `NotFound` on
an absent id and removes the record otherwise; the durable backend's `delete`
always succeeds (a zero-row `DELETE` is a success for `execute`); on both
backends, after a delete, `find` on the same id fails with `NotFound`. -/
theorem delete_spec :
    (∀ (s : TodoDatas) (id : Int),
        (lookupK s id = none →
          TodoRepositoryForMemory.delete s id = (.error (.NotFound id), s))
        ∧ ∀ t, lookupK s id = some t →
            (TodoRepositoryForMemory.delete s id).1 = .ok ()
            ∧ TodoRepositoryForMemory.find (TodoRepositoryForMemory.delete s id).2 id
                = .error (.NotFound id))
    ∧ ∀ (db : DbState) (id : Int),
        (TodoRepositoryForDb.delete db id).1 = .ok ()
        ∧ TodoRepositoryForDb.find (TodoRepositoryForDb.delete db id).2 id
            = .error (.NotFound id) := by
  constructor
  · intro s id
    constructor
    · intro h
      simp [TodoRepositoryForMemory.delete, h]
    · intro t h
      constructor
      · simp [TodoRepositoryForMemory.delete, h]
      · simp [TodoRepositoryForMemory.delete, TodoRepositoryForMemory.find, h,
          lookupK_removeK_self]
  · intro db id
    refine ⟨rfl, ?_⟩
    have hnone := todos_find?_after_delete db.todos id
    simp only [TodoRepositoryForDb.delete, TodoRepositoryForDb.find]
    rw [hnone]

/-- Witness for C6's amended statement on concrete stores. -/
theorem delete_spec_witness :
    (TodoRepositoryForMemory.delete exMem 7 = (.error (.NotFound 7), exMem))
    ∧ ((TodoRepositoryForMemory.delete exMem 1).1 = .ok ()
        ∧ TodoRepositoryForMemory.find (TodoRepositoryForMemory.delete exMem 1).2 1
            = .error (.NotFound 1)) :=
  ⟨((delete_spec.1 exMem 7).1 (by decide)),
   ((delete_spec.1 exMem 1).2 ⟨1, "a", false, []⟩ (by decide))⟩

/-- C7: on the durable label backend, creating a label whose exact name is
already stored fails with `Duplicate` carrying the pre-existing label's id
and leaves the store unchanged; creating a fresh name inserts the new label
row and returns it. -/
theorem label_create_duplicate_check (st : DbState) (name : String) :
    (∀ l, st.labels.find? (fun x => decide (x.name = name)) = some l →
        LabelRepositoryForDb.create st name = (.error (.Duplicate l.id), st))
    ∧ (st.labels.find? (fun x => decide (x.name = name)) = none →
        LabelRepositoryForDb.create st name
          = (.ok ⟨st.next_id, name⟩,
             { st with labels := st.labels ++ [⟨st.next_id, name⟩],
                        next_id := st.next_id + 1 })) := by
  constructor
  · intro l h
    simp [LabelRepositoryForDb.create, h]
  · intro h
    simp [LabelRepositoryForDb.create, h]

/-- A concrete relational state with one label named "a". -/
def exLabDb : DbState := ⟨[], [⟨1, "a"⟩], [], 2⟩

/-- Witness for C7: creating "a" again reports `Duplicate 1` without a second
row, creating "b" inserts it with the next serial id. -/
theorem label_create_duplicate_check_witness :
    LabelRepositoryForDb.create exLabDb "a" = (.error (.Duplicate 1), exLabDb)
    ∧ LabelRepositoryForDb.create exLabDb "b"
        = (.ok ⟨2, "b"⟩, ⟨[], [⟨1, "a"⟩, ⟨2, "b"⟩], [], 3⟩) :=
  ⟨(label_create_duplicate_check exLabDb "a").1 ⟨1, "a"⟩ (by decide),
   (label_create_duplicate_check exLabDb "b").2 (by decide)⟩

/-- A key is absent exactly when no entry carries it. -/
theorem lookupK_eq_none {α : Type} (s : List (Int × α)) (k : Int) :
    lookupK s k = none ↔ ∀ p ∈ s, p.1 ≠ k := by
  unfold lookupK
  rw [Option.map_eq_none', List.find?_eq_none]
  simp

/-- In-memory store states reached by: create "a", create "b", delete 1. -/
def colS1 : TodoDatas := (TodoRepositoryForMemory.create [] ⟨"a"⟩).2

def colS2 : TodoDatas := (TodoRepositoryForMemory.create colS1 ⟨"b"⟩).2

def colS3 : TodoDatas := (TodoRepositoryForMemory.delete colS2 1).2

/-- C8 counterexample: after create "a" (id 1), create "b" (id 2) and
delete 1, the store holds the live entity "b" under id 2, yet the next
create is assigned id `size()+1 = 2` again — the same id as a live entity
created earlier — and overwrites it. -/
theorem create_reuses_live_id :
    (TodoRepositoryForMemory.create colS3 ⟨"c"⟩).1.id = 2
    ∧ lookupK colS3 2 = some ⟨2, "b", false, []⟩
    ∧ lookupK (TodoRepositoryForMemory.create colS3 ⟨"c"⟩).2 2 = some ⟨2, "c", false, []⟩ := by
  decide

/-- C8 (amended): both in-memory backends assign the id `(size() + 1) as
i32` on create; the returned id is distinct from every live entity's id
whenever that id is not already a key of the store — but after deletions it
can coincide with a live key, in which case the insert overwrites that
entity. -/
theorem create_mem_id_assignment :
    (∀ (s : TodoDatas) (payload : CreateTodo),
        (TodoRepositoryForMemory.create s payload).1
          = ⟨asI32 (List.length s + 1), payload.text, false, []⟩
        ∧ (lookupK s (asI32 (List.length s + 1)) = none →
            ∀ p ∈ s, p.1 ≠ (TodoRepositoryForMemory.create s payload).1.id))
    ∧ ∀ (s : LabelDatas) (name : String),
        (LabelRepositoryForMemory.create s name).1 = ⟨asI32 (List.length s + 1), name⟩ := by
  refine ⟨fun s payload => ⟨rfl, fun h p hp => ?_⟩, fun s name => rfl⟩
  exact (lookupK_eq_none s _).1 h p hp

/-- Witness for C8's amended statement at a deletion-free concrete store. -/
theorem create_mem_id_assignment_witness :
    (TodoRepositoryForMemory.create exMem ⟨"b"⟩).1 = ⟨2, "b", false, []⟩
    ∧ ∀ p ∈ exMem, p.1 ≠ (TodoRepositoryForMemory.create exMem ⟨"b"⟩).1.id :=
  ⟨(create_mem_id_assignment.1 exMem ⟨"b"⟩).1,
   (create_mem_id_assignment.1 exMem ⟨"b"⟩).2 (by decide)⟩

instance : IsTotal Label (fun a b => a.id ≤ b.id) :=
  ⟨fun a b => le_total a.id b.id⟩

instance : IsTrans Label (fun a b => a.id ≤ b.id) :=
  ⟨fun _ _ _ hab hbc => le_trans hab hbc⟩

/-- C9 (amended): the durable label backend's `all` returns every stored
label in ascending id order (`ORDER BY labels.id ASC`); the in-memory
backend's `all` merely clones the store's values in enumeration order, with
no sorting applied. -/
theorem label_all_order :
    (∀ st : DbState,
        List.Sorted (fun a b : Label => a.id ≤ b.id) (LabelRepositoryForDb.all st)
        ∧ (LabelRepositoryForDb.all st).Perm st.labels)
    ∧ ∀ ms : LabelDatas, LabelRepositoryForMemory.all ms = ms.map Prod.snd := by
  refine ⟨fun st => ⟨List.sorted_insertionSort _ _, List.perm_insertionSort _ _⟩, fun ms => rfl⟩

/-- In-memory label store states reached by: create "a", "b", "c", then
delete 1 and delete 2, then create "d". -/
def labMemS1 : LabelDatas := (LabelRepositoryForMemory.create [] "a").2

def labMemS2 : LabelDatas := (LabelRepositoryForMemory.create labMemS1 "b").2

def labMemS3 : LabelDatas := (LabelRepositoryForMemory.create labMemS2 "c").2

def labMemS4 : LabelDatas := (LabelRepositoryForMemory.delete labMemS3 1).2

def labMemS5 : LabelDatas := (LabelRepositoryForMemory.delete labMemS4 2).2

def labMemS6 : LabelDatas := (LabelRepositoryForMemory.create labMemS5 "d").2

/-- C9 counterexample: a reachable in-memory label store on which `all()` is
not ascending by id — the surviving label 3 is enumerated before the newly
created label 2. -/
theorem label_all_mem_not_sorted :
    LabelRepositoryForMemory.all labMemS6 = [⟨3, "c"⟩, ⟨2, "d"⟩]
    ∧ ¬ List.Sorted (fun a b : Label => a.id ≤ b.id)
        (LabelRepositoryForMemory.all labMemS6) := by
  constructor
  · decide
  · intro h
    have h32 : (3 : Int) ≤ 2 := by
      have heq : LabelRepositoryForMemory.all labMemS6 = [⟨3, "c"⟩, ⟨2, "d"⟩] := by decide
      rw [heq] at h
      exact List.rel_of_sorted_cons h ⟨2, "d"⟩ (by simp)
    exact absurd h32 (by decide)

/-- Looking up a different key is unaffected by `insert`. -/
theorem lookupK_insertK_ne {α : Type} :
    ∀ (s : List (Int × α)) (k k' : Int) (v : α), k' ≠ k →
      lookupK (insertK s k v) k' = lookupK s k' := by
  intro s
  induction s with
  | nil =>
    intro k k' v h
    simp [insertK, lookupK, List.find?, Ne.symm h]
  | cons p rest ih =>
    intro k k' v h
    by_cases hp : p.1 = k
    · rw [insertK, if_pos hp]
      unfold lookupK
      rw [List.find?_cons_of_neg _ (by simp [Ne.symm h]),
        List.find?_cons_of_neg _ (by simp [hp, Ne.symm h])]
    · rw [insertK, if_neg hp]
      by_cases hpk : p.1 = k'
      · unfold lookupK
        rw [List.find?_cons_of_pos _ (by simp [hpk]), List.find?_cons_of_pos _ (by simp [hpk])]
      · unfold lookupK at ih ⊢
        rw [List.find?_cons_of_neg _ (by simp [hpk]), List.find?_cons_of_neg _ (by simp [hpk])]
        exact ih k k' v h

/-- Looking up a different key is unaffected by `remove`. -/
theorem lookupK_removeK_ne {α : Type} :
    ∀ (s : List (Int × α)) (k k' : Int), k' ≠ k →
      lookupK (removeK s k) k' = lookupK s k' := by
  intro s
  induction s with
  | nil => intro k k' h; rfl
  | cons p rest ih =>
    intro k k' h
    by_cases hp : p.1 = k
    · rw [removeK, List.filter_cons, if_neg (by simp [hp])]
      unfold lookupK
      rw [List.find?_cons_of_neg _ (by simp [hp, Ne.symm h])]
      exact ih k k' h
    · rw [removeK, List.filter_cons, if_pos (by simp [hp])]
      by_cases hpk : p.1 = k'
      · unfold lookupK
        rw [List.find?_cons_of_pos _ (by simp [hpk]), List.find?_cons_of_pos _ (by simp [hpk])]
      · unfold lookupK at ih ⊢
        rw [List.find?_cons_of_neg _ (by simp [hpk]), List.find?_cons_of_neg _ (by simp [hpk])]
        exact ih k k' h

/-- C10: frame property of the in-memory todo backend — `create` touches only
the key it inserts, `update` and `delete` touch only the entry of the given
id, and on their `NotFound` path the store is left entirely unchanged. -/
theorem memory_frame :
    (∀ (s : TodoDatas) (payload : CreateTodo) (k : Int),
        k ≠ asI32 (List.length s + 1) →
        lookupK (TodoRepositoryForMemory.create s payload).2 k = lookupK s k)
    ∧ (∀ (s : TodoDatas) (id : Int) (p : UpdateTodo) (k : Int), k ≠ id →
        lookupK (TodoRepositoryForMemory.update s id p).2 k = lookupK s k)
    ∧ (∀ (s : TodoDatas) (id : Int) (p : UpdateTodo),
        lookupK s id = none → (TodoRepositoryForMemory.update s id p).2 = s)
    ∧ (∀ (s : TodoDatas) (id k : Int), k ≠ id →
        lookupK (TodoRepositoryForMemory.delete s id).2 k = lookupK s k)
    ∧ ∀ (s : TodoDatas) (id : Int),
        lookupK s id = none → (TodoRepositoryForMemory.delete s id).2 = s := by
  refine ⟨?_, ?_, ?_, ?_, ?_⟩
  · intro s payload k hk
    exact lookupK_insertK_ne s _ k _ hk
  · intro s id p k hk
    cases h : lookupK s id with
    | none => simp [TodoRepositoryForMemory.update, h]
    | some t =>
      simp only [TodoRepositoryForMemory.update, h]
      exact lookupK_insertK_ne s id k _ hk
  · intro s id p h
    simp [TodoRepositoryForMemory.update, h]
  · intro s id k hk
    cases h : lookupK s id with
    | none => simp [TodoRepositoryForMemory.delete, h]
    | some t =>
      simp only [TodoRepositoryForMemory.delete, h]
      exact lookupK_removeK_ne s id k hk
  · intro s id h
    simp [TodoRepositoryForMemory.delete, h]

/-- Witness for C10 at a concrete store and keys. -/
theorem memory_frame_witness :
    lookupK (TodoRepositoryForMemory.create exMem ⟨"b"⟩).2 1 = lookupK exMem 1
    ∧ lookupK (TodoRepositoryForMemory.update exMem 1 ⟨some "z", none⟩).2 5 = lookupK exMem 5
    ∧ (TodoRepositoryForMemory.update exMem 9 ⟨some "z", none⟩).2 = exMem
    ∧ lookupK (TodoRepositoryForMemory.delete exMem 1).2 5 = lookupK exMem 5
    ∧ (TodoRepositoryForMemory.delete exMem 9).2 = exMem :=
  ⟨memory_frame.1 exMem ⟨"b"⟩ 1 (by decide),
   memory_frame.2.1 exMem 1 ⟨some "z", none⟩ 5 (by decide),
   memory_frame.2.2.1 exMem 9 ⟨some "z", none⟩ (by decide),
   memory_frame.2.2.2.1 exMem 1 5 (by decide),
   memory_frame.2.2.2.2 exMem 9 (by decide)⟩
